import Mathlib

/-!
Verification of the state-recovery and reconciliation protocol of the
usable-discord-bot repository.  The definitions below are shallow embeddings
of the TypeScript source:

* marker protocol: the confirmation-message templates of
  `thread-create.handler.ts` / the forum-sync service's `processThread`, and
  the decode pattern `Fragment ID: \x60([a-f0-9-]+)\x60` (case-insensitive)
  used by `findFragmentIdInThread`;
* thread state resolver: `isThreadProcessed` and `findFragmentIdInThread`;
* conversation builder: `buildThreadConversation`;
* change detector: `detectChanges` of the thread-update handler;
* retry utility: `retryDiscordApi`;
* reconciliation sweep: `syncForum` / `syncAllForums` / `syncThread` of the
  forum-sync service.

A fetched message page is modelled as `Except Unit (List Msg)`: `Except.error`
is a transport fetch that threw, `Except.ok` the list of messages in the order
the transport returned them (the chat platform returns the most recent
message first).
-/

namespace UsableBot

/-- Lowercase a single ASCII character, as the case-insensitive regex flag
does for the characters appearing in the marker pattern. -/
def lowerChar (c : Char) : Char :=
  if 'A' ≤ c ∧ c ≤ 'Z' then Char.ofNat (c.toNat + 32) else c

/-- The character class `[a-f0-9-]` of the decode regex, case-insensitive. -/
def isHexDash (c : Char) : Bool :=
  (decide ('a' ≤ c) && decide (c ≤ 'f')) || (decide ('A' ≤ c) && decide (c ≤ 'F')) ||
    (decide ('0' ≤ c) && decide (c ≤ '9')) || (c == '-')

/-- The backtick delimiter of the marker template. -/
def backtick : Char := '\x60'

/-- `startsWithList p l` : the character list `l` starts with `p`. -/
def startsWithList : List Char → List Char → Bool
  | [], _ => true
  | _ :: _, [] => false
  | p :: ps, c :: cs => p == c && startsWithList ps cs

/-- `containsList n l` : `n` occurs as a contiguous sublist of `l`
(the semantics of JavaScript's `String.includes`). -/
def containsList (needle : List Char) : List Char → Bool
  | [] => needle.isEmpty
  | c :: cs => startsWithList needle (c :: cs) || containsList needle cs

/-- JavaScript `hay.includes(needle)`. -/
def strContains (hay needle : String) : Bool :=
  containsList needle.data hay.data

/-- The literal part of the decode regex, lowercased (the regex carries the
`i` flag, so the scanner compares lowercased input characters against it). -/
def fragmentLabel : List Char :=
  ['f', 'r', 'a', 'g', 'm', 'e', 'n', 't', ' ', 'i', 'd', ':', ' ']

/-- Case-insensitive match of the literal label at the head of the input;
returns the remaining input on success. -/
def matchLabelCI : List Char → List Char → Option (List Char)
  | [], cs => some cs
  | _ :: _, [] => none
  | l :: ls, c :: cs => if lowerChar c = l then matchLabelCI ls cs else none

/-- Attempt to match the whole regex `Fragment ID: \x60([a-f0-9-]+)\x60` (with
the `i` flag) at the head of the input, returning capture group 1.  The
character class excludes the backtick, so the greedy `+` takes exactly the
maximal run of class characters and the match succeeds iff that run is
non-empty and followed by a backtick.  `matchMarkerTail` handles the part
after the literal label: opening backtick, capture group, closing backtick. -/
def matchMarkerTail : List Char → Option (List Char)
  | [] => none
  | c :: rest2 =>
    if c = backtick then
      if (rest2.takeWhile isHexDash).isEmpty then none
      else
        match rest2.drop (rest2.takeWhile isHexDash).length with
        | c2 :: _ => if c2 = backtick then some (rest2.takeWhile isHexDash) else none
        | [] => none
    else none

/-- Match of the full marker pattern at the head of the input: the
case-insensitive literal label followed by the backtick-delimited capture. -/
def matchMarkerAt (cs : List Char) : Option (List Char) :=
  match matchLabelCI fragmentLabel cs with
  | none => none
  | some rest => matchMarkerTail rest

/-- Leftmost-match scan of the input, as JavaScript's `String.match` performs
for a non-global regex: try the pattern at each start position from the left,
returning the first capture. -/
def decodeAux : List Char → Option (List Char)
  | [] => none
  | c :: cs =>
    match matchMarkerAt (c :: cs) with
    | some run => some run
    | none => decodeAux cs

/-- `content.match(/Fragment ID: \x60([a-f0-9-]+)\x60/i)` followed by
`match ? match[1] : null`, from `findFragmentIdInThread`. -/
def decodeFragmentId (content : String) : Option String :=
  (decodeAux content.data).map fun cs => String.mk cs

/-- A Discord message as observed by the bot: author identifier, whether the
author is a bot, display name, textual content, creation timestamp, and the
ISO rendering of the creation time used by the conversation builder. -/
structure Msg where
  authorId : String
  authorIsBot : Bool
  authorUsername : String
  content : String
  createdTimestamp : Nat
  createdAtIso : String
deriving DecidableEq

/-- Head piece of the confirmation template of `handleThreadCreate`
(`thread-create.handler.ts`, the `thread.send` template literal). -/
def confirmHead : String :=
  "✅ **Issue registered in Usable!**\n        📝 Fragment ID: \x60"

/-- Middle piece of the confirmation template, between the fragment id and
the thread name. -/
def confirmMid : String := "\x60\n        \n        📌 Title: "

/-- Tail piece of the confirmation template, after the thread name. -/
def confirmTail : String :=
  "\n        _Your post has been automatically logged. Updates to this thread will be tracked._"

/-- The bot's confirmation message posted by `handleThreadCreate`, with the
fragment id and the thread name interpolated as in the template literal. -/
def confirmationMessage (fragmentId threadName : String) : String :=
  confirmHead ++ fragmentId ++ confirmMid ++ threadName ++ confirmTail

/-- Head piece of the confirmation template of the forum-sync service's
`processThread`. -/
def syncHead : String :=
  "✅ **Issue registered in Usable!** _(retroactive sync)_\n📝 Fragment ID: \x60"

/-- Middle piece of the `processThread` confirmation template. -/
def syncMid : String := "\x60\n\n📌 Title: "

/-- Tail piece of the `processThread` confirmation template. -/
def syncTail : String := "\n_This post was processed during a sync operation._"

/-- The confirmation message posted into the thread by `processThread` after
a successful external create. -/
def syncConfirmationMessage (fragmentId threadName : String) : String :=
  syncHead ++ fragmentId ++ syncMid ++ threadName ++ syncTail

/-- The per-message predicate of `isThreadProcessed`: authored by the bot and
containing either confirmation substring. -/
def hasProcessedMarker (botUserId : String) (m : Msg) : Bool :=
  m.authorId == botUserId &&
    (strContains m.content "✅ **Issue registered in Usable!**" ||
      strContains m.content "Fragment ID:")

/-- `isThreadProcessed` of the forum-sync service: fetch a page of recent
messages and test whether any is a bot-authored confirmation; a fetch failure
is caught and reported as processed (`return true` in the `catch`). -/
def isThreadProcessed (page : Except Unit (List Msg)) (botUserId : String) : Bool :=
  match page with
  | Except.error _ => true
  | Except.ok msgs => msgs.any (hasProcessedMarker botUserId)

/-- The per-message predicate of `findFragmentIdInThread`: authored by the
bot and containing the literal label. -/
def isBotFragmentMsg (botUserId : String) (m : Msg) : Bool :=
  m.authorId == botUserId && strContains m.content "Fragment ID:"

/-- `findFragmentIdInThread`: take the first matching message of the fetched
page (the collection is iterated in the order the transport returned it) and
decode the fragment id from its content; a fetch failure is caught and
reported as `null`. -/
def findFragmentIdInThread (page : Except Unit (List Msg)) (botUserId : String) :
    Option String :=
  match page with
  | Except.error _ => none
  | Except.ok msgs =>
    match msgs.find? (isBotFragmentMsg botUserId) with
    | none => none
    | some m => decodeFragmentId m.content

/-- One attributable block of the conversation document
(`### username - iso\n\ncontent` in `buildThreadConversation`). -/
def formatMsgBlock (m : Msg) : String :=
  "### " ++ m.authorUsername ++ " - " ++ m.createdAtIso ++ "\n\n" ++ m.content

/-- The separator joining conversation blocks. -/
def conversationSep : String := "\n\n---\n\n"

/-- Bool comparator used by the builder's ascending sort on creation
timestamps. -/
def byCreatedAsc (a b : Msg) : Bool :=
  decide (a.createdTimestamp ≤ b.createdTimestamp)

/-- `buildThreadConversation`: fetch a page, drop bot-authored messages, sort
ascending by creation timestamp, render each as an attributable block and join
with the separator; `null` when the fetch fails or no message survives the
filter. -/
def buildThreadConversation (page : Except Unit (List Msg)) : Option String :=
  match page with
  | Except.error _ => none
  | Except.ok msgs =>
    if ((msgs.filter fun m => !m.authorIsBot).mergeSort byCreatedAsc).isEmpty then none
    else
      some (String.intercalate conversationSep
        (((msgs.filter fun m => !m.authorIsBot).mergeSort byCreatedAsc).map formatMsgBlock))

/-- The two thread properties compared by `detectChanges`. -/
structure ThreadSnap where
  name : String
  appliedTags : List String
deriving DecidableEq

/-- `detectChanges` of the thread-update handler: push `title` on exact name
inequality; compare the applied tags as JavaScript `Set`s (sizes differ, or
some old tag missing from the new set) and push `tags` when they differ. -/
def detectChanges (oldT newT : ThreadSnap) : List String :=
  let titlePart := if oldT.name ≠ newT.name then ["title"] else []
  let oldTags := oldT.appliedTags.dedup
  let newTags := newT.appliedTags.dedup
  let tagsChanged :=
    (oldTags.length != newTags.length) || !(oldTags.all fun t => newTags.contains t)
  titlePart ++ (if tagsChanged then ["tags"] else [])

/-- A Discord API error as inspected by the retry utility: the numeric `code`
property when present. -/
structure DiscordError where
  code : Option Int
deriving DecidableEq

/-- `delays[attempt] || delays[delays.length - 1]` (JavaScript `||` takes the
right operand when the left is `undefined` or `0`; an out-of-range index
yields `undefined`, modelled as `0`). -/
def pickDelay (delays : List Nat) (attempt : Nat) : Nat :=
  let v := (delays[attempt]?).getD 0
  if v ≠ 0 then v else (delays[(delays.length - 1)]?).getD 0

/-- The retry loop of `retryDiscordApi`.  `fn i` is the outcome of the `i`-th
invocation of the wrapped call.  Returns the result (`none` when the utility
gives up and returns `null`), the list of delays actually waited, and the
number of attempts performed.  `fuel` is the number of loop iterations left
(`maxRetries - attempt`). -/
def retryGo {T : Type} (fn : Nat → Except DiscordError T) (maxRetries : Nat)
    (delays : List Nat) (onlyRetryUnknownMessage : Bool) :
    Nat → Nat → List Nat → Option T × List Nat × Nat
  | 0, attempt, waits => (none, waits, attempt)
  | fuel + 1, attempt, waits =>
    match fn attempt with
    | Except.ok v => (some v, waits, attempt + 1)
    | Except.error e =>
      if (if onlyRetryUnknownMessage then e.code == some 10008 else true) &&
          !(attempt == maxRetries - 1) then
        retryGo fn maxRetries delays onlyRetryUnknownMessage fuel (attempt + 1)
          (waits ++ [pickDelay delays attempt])
      else (none, waits, attempt + 1)

/-- `retryDiscordApi` with explicit options. -/
def retryDiscordApi {T : Type} (fn : Nat → Except DiscordError T) (maxRetries : Nat)
    (delays : List Nat) (onlyRetryUnknownMessage : Bool) : Option T × List Nat × Nat :=
  retryGo fn maxRetries delays onlyRetryUnknownMessage maxRetries 0 []

/-- `retryDiscordApi` with its default options: `maxRetries = 3`,
`delays = [500, 1000, 2000]`, `onlyRetryUnknownMessage = true`. -/
def retryDiscordApiDefaults {T : Type} (fn : Nat → Except DiscordError T) :
    Option T × List Nat × Nat :=
  retryDiscordApi fn 3 [500, 1000, 2000] true

/-- The aggregate returned by the sweep (`SyncResult` of the forum-sync
service). -/
structure SyncResult where
  scannedThreads : Nat
  unprocessedThreads : Nat
  processedThreads : Nat
  failedThreads : Nat
  skippedThreads : Nat
  errors : List (String × String)
deriving DecidableEq

/-- The all-zero result `syncForum` starts from. -/
def emptySyncResult : SyncResult := ⟨0, 0, 0, 0, 0, []⟩

instance {ε α : Type} [DecidableEq ε] [DecidableEq α] : DecidableEq (Except ε α) := fun x y =>
  match x, y with
  | Except.ok a, Except.ok b =>
    if h : a = b then isTrue (by rw [h]) else isFalse (by intro hh; cases hh; exact h rfl)
  | Except.error a, Except.error b =>
    if h : a = b then isTrue (by rw [h]) else isFalse (by intro hh; cases hh; exact h rfl)
  | Except.ok _, Except.error _ => isFalse (by intro h; cases h)
  | Except.error _, Except.ok _ => isFalse (by intro h; cases h)

/-- A recent thread as the sweep sees it: its identifier, the page its
resolver fetch returns, and what `processThread` would do for it —
`Except.error e` models an exception escaping `processThread` (the only
uncaught throw site is the `thread.send` posting the confirmation; the
starter-message fetch and the external create catch internally and surface
`null`), `Except.ok b` its boolean return. -/
structure ThreadT where
  id : String
  page : Except Unit (List Msg)
  processOutcome : Except String Bool
deriving DecidableEq

/-- The per-thread loop of `syncForum`.  There is no `try`/`catch` around the
loop body in the source, so an exception from `processThread` propagates and
ends the whole sweep (`Except.error`).  `calls` records the identifiers of the
threads for which the create path (`processThread`) was entered. -/
def syncLoop (botId : String) (dryRun : Bool) :
    List ThreadT → SyncResult → List String → Except String (SyncResult × List String)
  | [], acc, calls => Except.ok (acc, calls)
  | t :: ts, acc, calls =>
    if isThreadProcessed t.page botId then
      syncLoop botId dryRun ts
        { acc with skippedThreads := acc.skippedThreads + 1 } calls
    else
      let acc1 := { acc with unprocessedThreads := acc.unprocessedThreads + 1 }
      if dryRun then syncLoop botId dryRun ts acc1 calls
      else
        match t.processOutcome with
        | Except.error e => Except.error e
        | Except.ok true =>
          syncLoop botId dryRun ts
            { acc1 with processedThreads := acc1.processedThreads + 1 } (calls ++ [t.id])
        | Except.ok false =>
          syncLoop botId dryRun ts
            { acc1 with failedThreads := acc1.failedThreads + 1 } (calls ++ [t.id])

/-- A tracked forum as the sweep sees it: whether the forum-to-fragment-type
mapping configures it, and its recent threads (active plus archived, already
filtered by the age cutoff). -/
structure ForumT where
  configured : Bool
  threads : List ThreadT
deriving DecidableEq

/-- `syncForum`: an unconfigured forum returns the zero result; otherwise
`scannedThreads` is the number of recent threads and the loop classifies each
thread. -/
def syncForumModel (botId : String) (dryRun : Bool) (f : ForumT) :
    Except String (SyncResult × List String) :=
  if !f.configured then Except.ok (emptySyncResult, [])
  else
    syncLoop botId dryRun f.threads
      { emptySyncResult with scannedThreads := f.threads.length } []

/-- The field-wise accumulation a single iteration of `syncAllForums`
performs on its running result. -/
def addResult (a b : SyncResult) : SyncResult :=
  ⟨a.scannedThreads + b.scannedThreads, a.unprocessedThreads + b.unprocessedThreads,
    a.processedThreads + b.processedThreads, a.failedThreads + b.failedThreads,
    a.skippedThreads + b.skippedThreads, a.errors ++ b.errors⟩

/-- The per-forum loop of `syncAllForums`; an exception escaping a
`syncForum` call propagates. -/
def syncAllLoop (botId : String) (dryRun : Bool) :
    List ForumT → SyncResult → Except String SyncResult
  | [], acc => Except.ok acc
  | f :: fs, acc =>
    match syncForumModel botId dryRun f with
    | Except.error e => Except.error e
    | Except.ok (r, _) => syncAllLoop botId dryRun fs (addResult acc r)

/-- `syncAllForums`: sweep every tracked forum, accumulating field-wise from
the zero result. -/
def syncAllForumsModel (botId : String) (dryRun : Bool) (forums : List ForumT) :
    Except String SyncResult :=
  syncAllLoop botId dryRun forums emptySyncResult

/-- `syncThread`: returns `false` for an invalid thread; when `forceReprocess`
is not set, consults `isThreadProcessed` and returns `true` without running
the create path when a marker is found; otherwise runs `processThread`.  The
first component records whether the create path was entered. -/
def syncThreadModel (threadValid : Bool) (page : Except Unit (List Msg)) (botId : String)
    (forceReprocess : Bool) (processOutcome : Except String Bool) :
    Bool × Except String Bool :=
  if !threadValid then (false, Except.ok false)
  else if !forceReprocess && isThreadProcessed page botId then (false, Except.ok true)
  else (true, processOutcome)

/-- A call that fails with Discord error code 10008 on every attempt. -/
def always10008 : Nat → Except DiscordError Unit := fun _ => Except.error ⟨some 10008⟩

/-- A concrete bot-authored confirmation message, used to instantiate the
claim theorems. -/
def demoMarkerMsg : Msg :=
  ⟨"B", true, "bot", syncConfirmationMessage "abc-123" "Help, app crashes", 50, "t50"⟩

/-- A concrete fetched page containing `demoMarkerMsg`. -/
def demoPage : Except Unit (List Msg) :=
  Except.ok [⟨"u1", false, "alice", "thanks!", 60, "t60"⟩, demoMarkerMsg,
    ⟨"u1", false, "alice", "Help, app crashes", 40, "t40"⟩]

/-! ## Marker-protocol lemmas -/

theorem matchLabelCI_of_map (t : List Char) (l rest : List Char)
    (h : t.map lowerChar = l) : matchLabelCI l (t ++ rest) = some rest := by
  induction t generalizing l with
  | nil => subst h; rfl
  | cons c cs ih =>
    subst h
    simp only [List.map_cons, List.cons_append, matchLabelCI, if_pos rfl]
    exact ih _ rfl

theorem takeWhile_hex_append (l t : List Char) (hl : ∀ c ∈ l, isHexDash c = true) :
    (l ++ backtick :: t).takeWhile isHexDash = l := by
  have hbt : isHexDash backtick = false := by decide
  induction l with
  | nil => simp [List.takeWhile_cons, hbt]
  | cons c cs ih =>
    have hc : isHexDash c = true := hl c (List.mem_cons_self c cs)
    have ih2 := ih fun x hx => hl x (List.mem_cons_of_mem c hx)
    simp [List.takeWhile_cons, hc, ih2]

theorem matchMarkerTail_run (id rest : List Char) (hne : id ≠ [])
    (hhex : ∀ c ∈ id, isHexDash c = true) :
    matchMarkerTail (backtick :: (id ++ backtick :: rest)) = some id := by
  have h1 : (id ++ backtick :: rest).takeWhile isHexDash = id :=
    takeWhile_hex_append id rest hhex
  have h2 : (id ++ backtick :: rest).drop id.length = backtick :: rest :=
    List.drop_left id (backtick :: rest)
  have h3 : id.isEmpty = false := by
    cases id with
    | nil => exact absurd rfl hne
    | cons a l => rfl
  simp only [matchMarkerTail, if_pos rfl, h1, h2, h3]
  simp

theorem matchMarkerAt_label (id rest : List Char) (hne : id ≠ [])
    (hhex : ∀ c ∈ id, isHexDash c = true) :
    matchMarkerAt ("Fragment ID: ".data ++ backtick :: (id ++ backtick :: rest)) = some id := by
  have hmap : "Fragment ID: ".data.map lowerChar = fragmentLabel := by decide
  simp only [matchMarkerAt, matchLabelCI_of_map _ _ _ hmap]
  exact matchMarkerTail_run id rest hne hhex

theorem matchMarkerAt_head_ne (c : Char) (cs : List Char) (h : lowerChar c ≠ 'f') :
    matchMarkerAt (c :: cs) = none := by
  simp only [matchMarkerAt, fragmentLabel, matchLabelCI, if_neg h]

theorem decodeAux_append (p s : List Char) (hp : ∀ c ∈ p, lowerChar c ≠ 'f') :
    decodeAux (p ++ s) = decodeAux s := by
  induction p with
  | nil => rfl
  | cons c cs ih =>
    have h1 : matchMarkerAt (c :: (cs ++ s)) = none :=
      matchMarkerAt_head_ne c _ (hp c (List.mem_cons_self c cs))
    simp only [List.cons_append, decodeAux, List.append_eq, h1]
    exact ih fun x hx => hp x (List.mem_cons_of_mem c hx)

theorem decodeAux_of_marker (l run : List Char) (hl : l ≠ [])
    (h : matchMarkerAt l = some run) : decodeAux l = some run := by
  cases l with
  | nil => exact absurd rfl hl
  | cons c cs => simp only [decodeAux, h]

/-! ## Claim theorems -/

/-- C2: for every identifier string matching the class `[a-f0-9-]+`
(case-insensitively) and every thread name, decoding the confirmation message
built by `handleThreadCreate` from that identifier returns exactly the
identifier. -/
theorem c2_decode_encode_roundtrip (id title : String) (hne : id.data ≠ [])
    (hhex : ∀ c ∈ id.data, isHexDash c = true) :
    decodeFragmentId (confirmationMessage id title) = some id := by
  have hmsg : (confirmationMessage id title).data =
      "✅ **Issue registered in Usable!**\n        📝 ".data ++
        ("Fragment ID: ".data ++ backtick :: (id.data ++ backtick ::
          ("\n        \n        📌 Title: ".data ++ title.data ++ confirmTail.data))) := by
    simp only [confirmationMessage, String.data_append]
    rw [show confirmHead.data =
        "✅ **Issue registered in Usable!**\n        📝 ".data ++
          ("Fragment ID: ".data ++ [backtick]) from by decide,
      show confirmMid.data = backtick :: "\n        \n        📌 Title: ".data from by decide]
    simp [List.append_assoc]
  have hpre : ∀ c ∈ "✅ **Issue registered in Usable!**\n        📝 ".data,
      lowerChar c ≠ 'f' := by decide
  have hmk : matchMarkerAt ("Fragment ID: ".data ++ backtick :: (id.data ++ backtick ::
      ("\n        \n        📌 Title: ".data ++ title.data ++ confirmTail.data))) =
        some id.data :=
    matchMarkerAt_label id.data _ hne hhex
  have hnil : ("Fragment ID: ".data ++ backtick :: (id.data ++ backtick ::
      ("\n        \n        📌 Title: ".data ++ title.data ++ confirmTail.data))) ≠ [] := by
    intro hcontra
    exact absurd (List.append_eq_nil.mp hcontra).2 (by simp)
  simp only [decodeFragmentId, hmsg, decodeAux_append _ _ hpre,
    decodeAux_of_marker _ _ hnil hmk, Option.map_some']

/-- Witness for C2 at a concrete mixed-case identifier and thread name. -/
theorem c2_decode_encode_roundtrip_witness :
    decodeFragmentId (confirmationMessage "a1B2-c3" "How do I fix CORS errors?") =
      some "a1B2-c3" :=
  c2_decode_encode_roundtrip "a1B2-c3" "How do I fix CORS errors?" (by decide) (by decide)

/-! ## Substring lemmas -/

theorem startsWithList_append (n l : List Char) : startsWithList n (n ++ l) = true := by
  induction n with
  | nil => rfl
  | cons c cs ih => simp [startsWithList, ih]

theorem containsList_append_left (n a b : List Char) (h : containsList n b = true) :
    containsList n (a ++ b) = true := by
  induction a with
  | nil => simpa using h
  | cons c cs ih =>
    simp only [List.cons_append, containsList, Bool.or_eq_true]
    exact Or.inr ih

theorem containsList_head (n b : List Char) : containsList n (n ++ b) = true := by
  cases n with
  | nil => cases b <;> simp [containsList, startsWithList]
  | cons c cs =>
    have h := startsWithList_append (c :: cs) b
    simp only [List.cons_append] at h
    simp only [List.cons_append, containsList, Bool.or_eq_true]
    exact Or.inl h

theorem strContains_syncConfirmation (fid title : String) :
    strContains (syncConfirmationMessage fid title)
      "✅ **Issue registered in Usable!**" = true := by
  simp only [strContains, syncConfirmationMessage, String.data_append]
  rw [show syncHead.data = "✅ **Issue registered in Usable!**".data ++
    " _(retroactive sync)_\n📝 Fragment ID: \x60".data from by decide]
  simp only [List.append_assoc]
  exact containsList_head _ _

/-- On a page sorted by strictly descending creation timestamp, `find?`
returns the unique matching element with the greatest timestamp. -/
theorem find_first_is_max {p : Msg → Bool} : ∀ (msgs : List Msg) (m : Msg),
    msgs.Pairwise (fun a b => b.createdTimestamp < a.createdTimestamp) →
    m ∈ msgs → p m = true →
    (∀ m' ∈ msgs, p m' = true → m' = m ∨ m'.createdTimestamp < m.createdTimestamp) →
    msgs.find? p = some m := by
  intro msgs
  induction msgs with
  | nil => intro m _ hm _ _; cases hm
  | cons h t ih =>
    intro m hsorted hm hmatch hmax
    rcases List.pairwise_cons.mp hsorted with ⟨hrel, htail⟩
    by_cases hh : p h = true
    · rw [List.find?_cons_of_pos _ hh]
      rcases List.mem_cons.mp hm with rfl | hmt
      · rfl
      · rcases hmax h (List.mem_cons_self h t) hh with rfl | hlt
        · rfl
        · exact absurd (hrel m hmt) (by omega)
    · rw [List.find?_cons_of_neg _ (by simpa using hh)]
      rcases List.mem_cons.mp hm with rfl | hmt
      · exact absurd hmatch hh
      · exact ih m htail hmt hmatch
          fun m' hm' hmm' => hmax m' (List.mem_cons_of_mem h hm') hmm'

/-- C1: once the Create path has executed successfully (the bot's
confirmation message embedding the marker was posted and appears in the
thread's fetched page), `isThreadProcessed` reports `true`, and a subsequent
non-forced `syncThread` returns `true` without entering the create path, so
the external create operation is not invoked a second time. -/
theorem c1_resolve_after_create (botId fid title : String) (msgs : List Msg) (m : Msg)
    (hm : m ∈ msgs) (hauth : m.authorId = botId)
    (hcontent : m.content = syncConfirmationMessage fid title)
    (pr : Except String Bool) :
    isThreadProcessed (Except.ok msgs) botId = true ∧
      (syncThreadModel true (Except.ok msgs) botId false pr).1 = false ∧
      (syncThreadModel true (Except.ok msgs) botId false pr).2 = Except.ok true := by
  have hmark : hasProcessedMarker botId m = true := by
    simp [hasProcessedMarker, hauth, hcontent, strContains_syncConfirmation]
  have hproc : isThreadProcessed (Except.ok msgs) botId = true := by
    simp only [isThreadProcessed, List.any_eq_true]
    exact ⟨m, hm, hmark⟩
  refine ⟨hproc, ?_, ?_⟩ <;> simp [syncThreadModel, hproc]

/-- Witness for C1: on `demoPage` (which holds the posted confirmation for
fragment `abc-123`), the resolver reports processed and the non-forced sync
skips the create path. -/
theorem c1_resolve_after_create_witness :
    isThreadProcessed demoPage "B" = true ∧
      (syncThreadModel true demoPage "B" false (Except.ok true)).1 = false ∧
      (syncThreadModel true demoPage "B" false (Except.ok true)).2 = Except.ok true :=
  c1_resolve_after_create "B" "abc-123" "Help, app crashes" _ demoMarkerMsg
    (by simp [demoPage]) rfl rfl (Except.ok true)

/-- C3: when the fetched page is ordered by strictly descending creation
timestamp (the order the chat transport returns message pages in) and a
message is the most recently created one matching the bot-marker predicate,
`findFragmentIdInThread` returns the identifier decoded from exactly that
message. -/
theorem c3_resolver_most_recent (botId : String) (msgs : List Msg) (m : Msg)
    (hsorted : msgs.Pairwise (fun a b => b.createdTimestamp < a.createdTimestamp))
    (hm : m ∈ msgs) (hmatch : isBotFragmentMsg botId m = true)
    (hmax : ∀ m' ∈ msgs, isBotFragmentMsg botId m' = true →
      m' = m ∨ m'.createdTimestamp < m.createdTimestamp) :
    findFragmentIdInThread (Except.ok msgs) botId = decodeFragmentId m.content := by
  have hfind : msgs.find? (isBotFragmentMsg botId) = some m :=
    find_first_is_max msgs m hsorted hm hmatch hmax
  simp [findFragmentIdInThread, hfind]

/-- Witness for C3: a page with two bot marker messages (a retried duplicate);
the more recently created one (`beef-222`) wins. -/
theorem c3_resolver_most_recent_witness :
    findFragmentIdInThread (Except.ok
      [⟨"B", true, "bot", syncConfirmationMessage "beef-222" "T", 90, "t90"⟩,
       ⟨"B", true, "bot", syncConfirmationMessage "cafe-111" "T", 80, "t80"⟩,
       ⟨"u1", false, "alice", "hi", 70, "t70"⟩]) "B" = some "beef-222" := by
  have h := c3_resolver_most_recent "B"
    [⟨"B", true, "bot", syncConfirmationMessage "beef-222" "T", 90, "t90"⟩,
     ⟨"B", true, "bot", syncConfirmationMessage "cafe-111" "T", 80, "t80"⟩,
     ⟨"u1", false, "alice", "hi", 70, "t70"⟩]
    ⟨"B", true, "bot", syncConfirmationMessage "beef-222" "T", 90, "t90"⟩
    (by decide) (by decide) (by decide) (by decide)
  rw [h]
  decide

/-- C10: `syncThread` with `forceReprocess = true` enters the create path
unconditionally — the result is `processThread`'s outcome for every possible
page, marker or not — while with `forceReprocess = false` a page holding a
marker short-circuits the create path.  A forced sync of an already-processed
thread therefore runs the external create again. -/
theorem c10_force_reprocess (page : Except Unit (List Msg)) (botId : String)
    (pr : Except String Bool) :
    (syncThreadModel true page botId true pr).1 = true ∧
      (syncThreadModel true page botId true pr).2 = pr ∧
      (isThreadProcessed page botId = true →
        (syncThreadModel true page botId false pr).1 = false) := by
  refine ⟨rfl, rfl, fun h => ?_⟩
  simp [syncThreadModel, h]

/-- Witness for C10 on `demoPage`, an already-processed thread: forced sync
enters the create path, non-forced sync does not. -/
theorem c10_force_reprocess_witness :
    (syncThreadModel true demoPage "B" true (Except.ok true)).1 = true ∧
      (syncThreadModel true demoPage "B" false (Except.ok true)).1 = false :=
  ⟨(c10_force_reprocess demoPage "B" (Except.ok true)).1,
    (c10_force_reprocess demoPage "B" (Except.ok true)).2.2 (by decide)⟩

/-- C7: the conversation builder returns `none` exactly when no non-bot
message survives the filter; otherwise the document is the separator-join of
one attributable block per non-bot-authored message of the page (a
permutation of the filtered messages — in particular no bot-authored
message contributes a block), ordered ascending by creation timestamp. -/
theorem c7_conversation_builder (msgs : List Msg) :
    ((msgs.filter fun m => !m.authorIsBot) = [] →
      buildThreadConversation (Except.ok msgs) = none) ∧
    ((msgs.filter fun m => !m.authorIsBot) ≠ [] →
      ((msgs.filter fun m => !m.authorIsBot).mergeSort byCreatedAsc).Perm
          (msgs.filter fun m => !m.authorIsBot) ∧
        ((msgs.filter fun m => !m.authorIsBot).mergeSort byCreatedAsc).Pairwise
          (fun a b => a.createdTimestamp ≤ b.createdTimestamp) ∧
        buildThreadConversation (Except.ok msgs) =
          some (String.intercalate conversationSep
            (((msgs.filter fun m => !m.authorIsBot).mergeSort byCreatedAsc).map
              formatMsgBlock))) := by
  constructor
  · intro h
    simp [buildThreadConversation, h]
  · intro h
    have hperm := List.mergeSort_perm (msgs.filter fun m => !m.authorIsBot) byCreatedAsc
    have hne : (msgs.filter fun m => !m.authorIsBot).mergeSort byCreatedAsc ≠ [] := by
      intro hnil
      apply h
      have hlen := hperm.length_eq
      rw [hnil] at hlen
      exact List.length_eq_zero.mp hlen.symm
    refine ⟨hperm, ?_, ?_⟩
    · have hs := @List.sorted_mergeSort Msg byCreatedAsc
        (fun a b c hab hbc => by
          simp only [byCreatedAsc, decide_eq_true_eq] at hab hbc ⊢
          omega)
        (fun a b => by
          simp only [byCreatedAsc]
          rcases Nat.le_total a.createdTimestamp b.createdTimestamp with h1 | h1 <;>
            simp [h1])
        (msgs.filter fun m => !m.authorIsBot)
      exact hs.imp fun hab => by
        simpa only [byCreatedAsc, decide_eq_true_eq] using hab
    · have hempty : ((msgs.filter fun m => !m.authorIsBot).mergeSort byCreatedAsc).isEmpty
          = false := by
        cases hcase : (msgs.filter fun m => !m.authorIsBot).mergeSort byCreatedAsc with
        | nil => exact absurd hcase hne
        | cons a l => rfl
      simp [buildThreadConversation, hempty]

unseal List.merge List.mergeSort in
/-- Witness for C7 on the spec's example `[human2, bot, human1]` page: two
blocks, ascending, no bot content. -/
theorem c7_conversation_builder_witness :
    buildThreadConversation (Except.ok
      [⟨"u2", false, "human2", "second", 20, "t20"⟩,
       ⟨"B", true, "bot", "Fragment ID: secret", 15, "t15"⟩,
       ⟨"u1", false, "human1", "first", 10, "t10"⟩]) =
      some "### human1 - t10\n\nfirst\n\n---\n\n### human2 - t20\n\nsecond" := by
  have h := (c7_conversation_builder
    [⟨"u2", false, "human2", "second", 20, "t20"⟩,
     ⟨"B", true, "bot", "Fragment ID: secret", 15, "t15"⟩,
     ⟨"u1", false, "human1", "first", 10, "t10"⟩]).2 (by decide)
  rw [h.2.2]
  decide

/-- C9 (amended): with the default options, an error with code 10008 is
retried on the fixed schedule — waits of 500ms then 1000ms, at most three
attempts total, the configured 2000ms slot never being waited since no delay
follows the final attempt; an error with any other code fails fast after one
attempt with no wait; exhausted or non-retryable failures return `none`
instead of throwing; and a success on any attempt returns the wrapped call's
result. -/
theorem c9_retry_behavior {T : Type} (fn : Nat → Except DiscordError T) :
    ((∀ i, i < 3 → fn i = Except.error ⟨some 10008⟩) →
      retryDiscordApiDefaults fn = (none, [500, 1000], 3)) ∧
    (∀ e, fn 0 = Except.error e → e.code ≠ some 10008 →
      retryDiscordApiDefaults fn = (none, [], 1)) ∧
    (∀ v k, k < 3 → fn k = Except.ok v →
      (∀ i, i < k → fn i = Except.error ⟨some 10008⟩) →
      (retryDiscordApiDefaults fn).1 = some v) := by
  refine ⟨?_, ?_, ?_⟩
  · intro hall
    have h0 := hall 0 (by omega)
    have h1 := hall 1 (by omega)
    have h2 := hall 2 (by omega)
    simp [retryDiscordApiDefaults, retryDiscordApi, retryGo, h0, h1, h2, pickDelay]
  · intro e h0 hcode
    have hbeq : (e.code == some 10008) = false := by
      cases e with
      | mk c => simpa using hcode
    simp [retryDiscordApiDefaults, retryDiscordApi, retryGo, h0, hbeq]
  · intro v k hk hok hpre
    interval_cases k
    · simp [retryDiscordApiDefaults, retryDiscordApi, retryGo, hok]
    · have h0 := hpre 0 (by omega)
      simp [retryDiscordApiDefaults, retryDiscordApi, retryGo, h0, hok]
    · have h0 := hpre 0 (by omega)
      have h1 := hpre 1 (by omega)
      simp [retryDiscordApiDefaults, retryDiscordApi, retryGo, h0, h1, hok]

/-- Witness for C9: a call succeeding on its third attempt after two 10008
failures returns the underlying result. -/
theorem c9_retry_behavior_witness :
    (retryDiscordApiDefaults fun i =>
      if i = 2 then Except.ok 7 else Except.error ⟨some 10008⟩).1 = some 7 :=
  (c9_retry_behavior fun i =>
      if i = 2 then Except.ok 7 else Except.error ⟨some 10008⟩).2.2 7 2
    (by omega) (by decide)
    (fun i hi => by interval_cases i <;> decide)

/-- C9 counterexample to the claim as stated: under the default options a
persistently failing 10008 call waits 500ms and 1000ms only — the delay list
is not the claimed `[500, 1000, 2000]`, whose third entry is never waited. -/
theorem c9_retry_schedule_counterexample :
    (retryDiscordApiDefaults always10008).2.1 = [500, 1000] ∧
      ¬(retryDiscordApiDefaults always10008).2.1 = [500, 1000, 2000] := by
  constructor <;> decide

/-- C8: `detectChanges` includes `title` iff the names differ as exact
strings, includes `tags` iff the applied-tag collections differ as sets
(order-independent and symmetric, via the membership formulation), and
returns the empty list when name and tag set both agree. -/
theorem c8_detect_changes (o n : ThreadSnap) :
    (("title" ∈ detectChanges o n) ↔ o.name ≠ n.name) ∧
      (("tags" ∈ detectChanges o n) ↔ ¬(∀ t, t ∈ o.appliedTags ↔ t ∈ n.appliedTags)) ∧
      (o.name = n.name → (∀ t, t ∈ o.appliedTags ↔ t ∈ n.appliedTags) →
        detectChanges o n = []) := by
  have hkey : ((o.appliedTags.dedup.length != n.appliedTags.dedup.length) ||
      !(o.appliedTags.dedup.all fun t => n.appliedTags.dedup.contains t)) = false ↔
      (∀ t, t ∈ o.appliedTags ↔ t ∈ n.appliedTags) := by
    rw [Bool.or_eq_false_iff]
    constructor
    · rintro ⟨h1, h2⟩
      have hlen : o.appliedTags.dedup.length = n.appliedTags.dedup.length := by
        simpa using h1
      have hsub : ∀ t ∈ o.appliedTags.dedup, t ∈ n.appliedTags.dedup := by
        intro t ht
        have h2a : (o.appliedTags.dedup.all fun t => n.appliedTags.dedup.contains t) = true := by
          simpa using h2
        simpa using List.all_eq_true.mp h2a t ht
      have hfs : o.appliedTags.toFinset = n.appliedTags.toFinset := by
        apply Finset.eq_of_subset_of_card_le
        · intro x hx
          rw [List.mem_toFinset] at hx ⊢
          exact List.mem_dedup.mp (hsub x (List.mem_dedup.mpr hx))
        · rw [List.card_toFinset, List.card_toFinset, hlen]
      intro t
      constructor
      · intro ht
        exact List.mem_toFinset.mp (hfs ▸ List.mem_toFinset.mpr ht)
      · intro ht
        exact List.mem_toFinset.mp (hfs ▸ List.mem_toFinset.mpr ht)
    · intro hiff
      have hfs : o.appliedTags.toFinset = n.appliedTags.toFinset := by
        apply Finset.ext
        intro x
        simp only [List.mem_toFinset]
        exact hiff x
      constructor
      · have hlen : o.appliedTags.dedup.length = n.appliedTags.dedup.length := by
          rw [← List.card_toFinset, ← List.card_toFinset, hfs]
        simpa using hlen
      · have hall : (o.appliedTags.dedup.all fun t => n.appliedTags.dedup.contains t) = true := by
          rw [List.all_eq_true]
          intro t ht
          have h1 : t ∈ o.appliedTags := List.mem_dedup.mp ht
          have h2 : t ∈ n.appliedTags.dedup := List.mem_dedup.mpr ((hiff t).mp h1)
          simpa using h2
        simpa using hall
  by_cases hname : o.name = n.name <;>
    rcases hb : ((o.appliedTags.dedup.length != n.appliedTags.dedup.length) ||
      !(o.appliedTags.dedup.all fun t => n.appliedTags.dedup.contains t)) with _ | _
  · have hP := hkey.mp hb
    have hlist : detectChanges o n = [] := by
      simp only [detectChanges]
      rw [if_neg (not_not_intro hname), hb]
      simp
    rw [hlist]
    exact ⟨iff_of_false (by decide) (fun hne => hne hname),
      iff_of_false (by decide) (not_not_intro hP), fun _ _ => rfl⟩
  · have hnP : ¬(∀ t, t ∈ o.appliedTags ↔ t ∈ n.appliedTags) := by
      intro hP
      rw [hkey.mpr hP] at hb
      cases hb
    have hlist : detectChanges o n = ["tags"] := by
      simp only [detectChanges]
      rw [if_neg (not_not_intro hname), hb]
      simp
    rw [hlist]
    exact ⟨iff_of_false (by decide) (fun hne => hne hname),
      iff_of_true (by decide) hnP, fun _ hP => absurd hP hnP⟩
  · have hP := hkey.mp hb
    have hlist : detectChanges o n = ["title"] := by
      simp only [detectChanges]
      rw [if_pos hname, hb]
      simp
    rw [hlist]
    exact ⟨iff_of_true (by decide) hname,
      iff_of_false (by decide) (not_not_intro hP), fun h _ => absurd h hname⟩
  · have hnP : ¬(∀ t, t ∈ o.appliedTags ↔ t ∈ n.appliedTags) := by
      intro hP
      rw [hkey.mpr hP] at hb
      cases hb
    have hlist : detectChanges o n = ["title", "tags"] := by
      simp only [detectChanges]
      rw [if_pos hname, hb]
      simp
    rw [hlist]
    exact ⟨iff_of_true (by decide) hname,
      iff_of_true (by decide) hnP, fun h _ => absurd h hname⟩

/-- Witness for C8 on the spec's examples: equal names with tags
`[x, y]` versus `[y, x]` yield no changes; differing names yield `title`. -/
theorem c8_detect_changes_witness :
    detectChanges ⟨"A", ["x", "y"]⟩ ⟨"A", ["y", "x"]⟩ = [] ∧
      "title" ∈ detectChanges ⟨"A", ["x"]⟩ ⟨"B", ["x"]⟩ :=
  ⟨(c8_detect_changes ⟨"A", ["x", "y"]⟩ ⟨"A", ["y", "x"]⟩).2.2 rfl
      (fun t => by simp [List.mem_cons, or_comm]),
    (c8_detect_changes ⟨"A", ["x"]⟩ ⟨"B", ["x"]⟩).1.mpr (by decide)⟩


/-- Invariants of a normally-returning sweep loop: the errors list is never
touched, `skippedThreads` counts exactly the threads whose resolver reported
processed, and every recorded create call belongs to a thread that resolved
unprocessed. -/
theorem syncLoop_ok_invariants (botId : String) (dryRun : Bool) :
    ∀ (ts : List ThreadT) (acc : SyncResult) (calls : List String) (r : SyncResult)
      (calls2 : List String),
      syncLoop botId dryRun ts acc calls = Except.ok (r, calls2) →
      r.errors = acc.errors ∧
        r.skippedThreads = acc.skippedThreads +
          (ts.filter fun t => isThreadProcessed t.page botId).length ∧
        (∀ i ∈ calls2, i ∈ calls ∨ ∃ t ∈ ts, t.id = i ∧
          isThreadProcessed t.page botId = false) := by
  intro ts
  induction ts with
  | nil =>
    intro acc calls r calls2 h
    simp only [syncLoop, Except.ok.injEq, Prod.mk.injEq] at h
    obtain ⟨rfl, rfl⟩ := h
    exact ⟨rfl, by simp, fun i hi => Or.inl hi⟩
  | cons t ts ih =>
    intro acc calls r calls2 h
    simp only [syncLoop] at h
    by_cases hp : isThreadProcessed t.page botId = true
    · rw [if_pos hp] at h
      obtain ⟨h1, h2, h3⟩ := ih _ _ _ _ h
      refine ⟨h1, ?_, ?_⟩
      · rw [h2]
        simp only [List.filter_cons, hp, if_pos, List.length_cons]
        omega
      · intro i hi
        rcases h3 i hi with hin | ⟨u, hu, hid, hproc⟩
        · exact Or.inl hin
        · exact Or.inr ⟨u, List.mem_cons_of_mem t hu, hid, hproc⟩
    · have hp2 : isThreadProcessed t.page botId = false := by simpa using hp
      rw [if_neg hp] at h
      have hfilter : ((t :: ts).filter fun u => isThreadProcessed u.page botId)
          = ts.filter fun u => isThreadProcessed u.page botId := by
        simp [List.filter_cons, hp2]
      by_cases hd : dryRun = true
      · rw [if_pos hd] at h
        obtain ⟨h1, h2, h3⟩ := ih _ _ _ _ h
        refine ⟨h1, ?_, ?_⟩
        · rw [h2, hfilter]
        · intro i hi
          rcases h3 i hi with hin | ⟨u, hu, hid, hproc⟩
          · exact Or.inl hin
          · exact Or.inr ⟨u, List.mem_cons_of_mem t hu, hid, hproc⟩
      · rw [if_neg hd] at h
        cases hout : t.processOutcome with
        | error e => rw [hout] at h; simp at h
        | ok b =>
          rw [hout] at h
          have hcalls : ∀ i ∈ calls ++ [t.id], i ∈ calls ∨ ∃ u ∈ t :: ts, u.id = i ∧
              isThreadProcessed u.page botId = false := by
            intro i hi
            rcases List.mem_append.mp hi with hin | hin
            · exact Or.inl hin
            · exact Or.inr ⟨t, List.mem_cons_self t ts,
                (List.mem_singleton.mp hin).symm, hp2⟩
          cases b
          · obtain ⟨h1, h2, h3⟩ := ih _ _ _ _ h
            refine ⟨h1, ?_, ?_⟩
            · rw [h2, hfilter]
            · intro i hi
              rcases h3 i hi with hin | ⟨u, hu, hid, hproc⟩
              · exact hcalls i hin
              · exact Or.inr ⟨u, List.mem_cons_of_mem t hu, hid, hproc⟩
          · obtain ⟨h1, h2, h3⟩ := ih _ _ _ _ h
            refine ⟨h1, ?_, ?_⟩
            · rw [h2, hfilter]
            · intro i hi
              rcases h3 i hi with hin | ⟨u, hu, hid, hproc⟩
              · exact hcalls i hin
              · exact Or.inr ⟨u, List.mem_cons_of_mem t hu, hid, hproc⟩


/-- C4 (amended): the per-thread loop of `syncForum` contains no exception
handling — a sweep that returns normally always returns an empty errors list
(nothing in `syncForum` ever records a `(threadId, errorMessage)` pair), and
an exception thrown while processing a thread (the resolver and the external
create swallow their own failures; the uncaught throw site is posting the
confirmation) propagates out of the sweep, aborting the remaining threads. -/
theorem c4_sweep_exception_propagation (botId : String) :
    (∀ (dryRun : Bool) (f : ForumT) (r : SyncResult) (calls : List String),
      syncForumModel botId dryRun f = Except.ok (r, calls) → r.errors = []) ∧
    (∀ (pre post : List ThreadT) (t : ThreadT) (e : String) (acc : SyncResult)
        (calls : List String),
      (∀ u ∈ pre, isThreadProcessed u.page botId = true) →
      isThreadProcessed t.page botId = false → t.processOutcome = Except.error e →
      syncLoop botId false (pre ++ t :: post) acc calls = Except.error e) := by
  constructor
  · intro dryRun f r calls h
    by_cases hc : f.configured = true
    · have h2 : syncLoop botId dryRun f.threads
          { emptySyncResult with scannedThreads := f.threads.length } [] =
          Except.ok (r, calls) := by
        simpa [syncForumModel, hc] using h
      exact (syncLoop_ok_invariants botId dryRun _ _ _ _ _ h2).1
    · have hc2 : f.configured = false := by simpa using hc
      simp only [syncForumModel, hc2, Bool.not_false, if_pos, Except.ok.injEq,
        Prod.mk.injEq] at h
      rw [← h.1]
      rfl
  · intro pre
    induction pre with
    | nil =>
      intro post t e acc calls _ ht hout
      simp only [List.nil_append, syncLoop]
      rw [if_neg (by simp [ht]), if_neg (by simp), hout]
    | cons p pre2 ih =>
      intro post t e acc calls hpre ht hout
      simp only [List.cons_append, syncLoop]
      rw [if_pos (hpre p (List.mem_cons_self p pre2))]
      exact ih post t e _ calls (fun u hu => hpre u (List.mem_cons_of_mem p hu)) ht hout

/-- C5: a thread whose resolver message fetch fails is treated as processed
(the `catch` returns `true`), so the sweep counts it among `skippedThreads`
— `skippedThreads` is exactly the number of threads resolving processed —
and the create path is only ever entered for threads that resolved
unprocessed; moreover the sweep always returns normally when no create-path
call throws, so the fetch failure never propagates to the caller. -/
theorem c5_fetch_failure_skip (botId : String) :
    (isThreadProcessed (Except.error ()) botId = true) ∧
    (∀ (dryRun : Bool) (f : ForumT) (r : SyncResult) (calls : List String),
      f.configured = true →
      syncForumModel botId dryRun f = Except.ok (r, calls) →
      r.skippedThreads =
          (f.threads.filter fun t => isThreadProcessed t.page botId).length ∧
        ∀ i ∈ calls, ∃ t ∈ f.threads, t.id = i ∧
          isThreadProcessed t.page botId = false) ∧
    (∀ (dryRun : Bool) (ts : List ThreadT) (acc : SyncResult) (calls : List String),
      (∀ t ∈ ts, ∃ b, t.processOutcome = Except.ok b) →
      ∃ r calls2, syncLoop botId dryRun ts acc calls = Except.ok (r, calls2)) := by
  refine ⟨rfl, ?_, ?_⟩
  · intro dryRun f r calls hc h
    have h2 : syncLoop botId dryRun f.threads
        { emptySyncResult with scannedThreads := f.threads.length } [] =
        Except.ok (r, calls) := by
      simpa [syncForumModel, hc] using h
    obtain ⟨_, h3, h4⟩ := syncLoop_ok_invariants botId dryRun _ _ _ _ _ h2
    refine ⟨by simpa [emptySyncResult] using h3, ?_⟩
    intro i hi
    rcases h4 i hi with hin | hex
    · exact absurd hin (List.not_mem_nil i)
    · exact hex
  · intro dryRun ts
    induction ts with
    | nil => intro acc calls _; exact ⟨acc, calls, rfl⟩
    | cons t ts ih =>
      intro acc calls hall
      simp only [syncLoop]
      by_cases hp : isThreadProcessed t.page botId = true
      · rw [if_pos hp]
        exact ih _ _ fun u hu => hall u (List.mem_cons_of_mem t hu)
      · rw [if_neg hp]
        by_cases hd : dryRun = true
        · rw [if_pos hd]
          exact ih _ _ fun u hu => hall u (List.mem_cons_of_mem t hu)
        · rw [if_neg hd]
          obtain ⟨b, hout⟩ := hall t (List.mem_cons_self t ts)
          rw [hout]
          cases b
          · exact ih _ _ fun u hu => hall u (List.mem_cons_of_mem t hu)
          · exact ih _ _ fun u hu => hall u (List.mem_cons_of_mem t hu)

/-- A run of the multi-forum loop in which every per-forum sweep returns
normally folds the per-forum results with `addResult`. -/
theorem syncAllLoop_ok (botId : String) (dryRun : Bool) :
    ∀ (forums : List ForumT) (rs : List SyncResult) (acc : SyncResult),
      (forums.map fun f => (syncForumModel botId dryRun f).map Prod.fst) =
        rs.map Except.ok →
      syncAllLoop botId dryRun forums acc = Except.ok (rs.foldl addResult acc) := by
  intro forums
  induction forums with
  | nil =>
    intro rs acc h
    cases rs with
    | nil => rfl
    | cons r rs2 => simp at h
  | cons f fs ih =>
    intro rs acc h
    cases rs with
    | nil => simp at h
    | cons r rs2 =>
      simp only [List.map_cons, List.cons.injEq] at h
      obtain ⟨h1, h2⟩ := h
      simp only [syncAllLoop]
      cases hsf : syncForumModel botId dryRun f with
      | error e => rw [hsf] at h1; simp [Except.map] at h1
      | ok p =>
        rw [hsf] at h1
        have hp1 : p.1 = r := by simpa [Except.map] using h1
        rw [List.foldl_cons, ← hp1]
        exact ih rs2 (addResult acc p.1) h2

/-- Folding `addResult` sums every counter field-wise and concatenates the
error lists in order. -/
theorem foldl_addResult : ∀ (rs : List SyncResult) (acc : SyncResult),
    rs.foldl addResult acc =
      ⟨acc.scannedThreads + (rs.map SyncResult.scannedThreads).sum,
        acc.unprocessedThreads + (rs.map SyncResult.unprocessedThreads).sum,
        acc.processedThreads + (rs.map SyncResult.processedThreads).sum,
        acc.failedThreads + (rs.map SyncResult.failedThreads).sum,
        acc.skippedThreads + (rs.map SyncResult.skippedThreads).sum,
        acc.errors ++ (rs.map SyncResult.errors).flatten⟩ := by
  intro rs
  induction rs with
  | nil => intro acc; cases acc; simp
  | cons r rs2 ih =>
    intro acc
    rw [List.foldl_cons, ih]
    cases acc
    cases r
    simp [addResult, Nat.add_assoc, List.append_assoc]

/-- C6: when every tracked channel's sweep completes, `syncAllForums` returns
the field-wise sum of the per-channel results over all five counters, with an
errors list equal to the concatenation of the per-channel error lists in
channel order. -/
theorem c6_sweep_aggregation (botId : String) (dryRun : Bool)
    (forums : List ForumT) (rs : List SyncResult)
    (h : (forums.map fun f => (syncForumModel botId dryRun f).map Prod.fst) =
      rs.map Except.ok) :
    syncAllForumsModel botId dryRun forums = Except.ok
      ⟨(rs.map SyncResult.scannedThreads).sum,
        (rs.map SyncResult.unprocessedThreads).sum,
        (rs.map SyncResult.processedThreads).sum,
        (rs.map SyncResult.failedThreads).sum,
        (rs.map SyncResult.skippedThreads).sum,
        (rs.map SyncResult.errors).flatten⟩ := by
  rw [syncAllForumsModel, syncAllLoop_ok botId dryRun forums rs emptySyncResult h,
    foldl_addResult]
  simp [emptySyncResult]


/-- Witness for C4: a sweep whose first thread is skipped (fetch failure) and
whose second thread's create path throws aborts with that exception. -/
theorem c4_sweep_exception_propagation_witness :
    syncLoop "bot" false
      [⟨"p1", Except.error (), Except.ok true⟩,
       ⟨"t1", Except.ok [], Except.error "boom"⟩] emptySyncResult [] =
      Except.error "boom" :=
  (c4_sweep_exception_propagation "bot").2 [⟨"p1", Except.error (), Except.ok true⟩] []
    ⟨"t1", Except.ok [], Except.error "boom"⟩ "boom" emptySyncResult []
    (by decide) (by decide) rfl

/-- C4 counterexample to the claim as stated: a two-thread sweep in which
processing the first thread throws returns the exception to the caller — the
error is not caught, no `(threadId, message)` pair is recorded, and the
second thread is never processed. -/
theorem c4_sweep_errors_counterexample :
    syncForumModel "bot" false
      ⟨true, [⟨"t1", Except.ok [], Except.error "send failed"⟩,
        ⟨"t2", Except.ok [], Except.ok true⟩]⟩ = Except.error "send failed" := by
  decide

/-- Witness for C5: a forum whose first thread's fetch fails completes with
that thread counted among the skipped. -/
theorem c5_fetch_failure_skip_witness :
    isThreadProcessed (Except.error ()) "bot" = true ∧
      (⟨2, 1, 1, 0, 1, []⟩ : SyncResult).skippedThreads = 1 :=
  ⟨(c5_fetch_failure_skip "bot").1,
    ((c5_fetch_failure_skip "bot").2.1 false
        ⟨true, [⟨"t1", Except.error (), Except.ok true⟩,
          ⟨"t2", Except.ok [], Except.ok true⟩]⟩
        ⟨2, 1, 1, 0, 1, []⟩ ["t2"] rfl (by decide)).1.trans (by decide)⟩

/-- Witness for C6 on the spec's example: channels scanning 3 and 5 threads
aggregate to 8. -/
theorem c6_sweep_aggregation_witness :
    syncAllForumsModel "bot" true
      [⟨true, [⟨"a1", Except.ok [], Except.ok true⟩, ⟨"a2", Except.ok [], Except.ok true⟩,
        ⟨"a3", Except.ok [], Except.ok true⟩]⟩,
       ⟨true, [⟨"b1", Except.ok [], Except.ok true⟩, ⟨"b2", Except.ok [], Except.ok true⟩,
        ⟨"b3", Except.ok [], Except.ok true⟩, ⟨"b4", Except.ok [], Except.ok true⟩,
        ⟨"b5", Except.ok [], Except.ok true⟩]⟩] =
      Except.ok ⟨8, 8, 0, 0, 0, []⟩ := by
  have h := c6_sweep_aggregation "bot" true
    [⟨true, [⟨"a1", Except.ok [], Except.ok true⟩, ⟨"a2", Except.ok [], Except.ok true⟩,
      ⟨"a3", Except.ok [], Except.ok true⟩]⟩,
     ⟨true, [⟨"b1", Except.ok [], Except.ok true⟩, ⟨"b2", Except.ok [], Except.ok true⟩,
      ⟨"b3", Except.ok [], Except.ok true⟩, ⟨"b4", Except.ok [], Except.ok true⟩,
      ⟨"b5", Except.ok [], Except.ok true⟩]⟩]
    [⟨3, 3, 0, 0, 0, []⟩, ⟨5, 5, 0, 0, 0, []⟩] (by decide)
  exact h.trans (by decide)

end UsableBot
